import Mathlib

/-!
Verification development for the bartertown/gastown repository.

Part A embeds the Go helpers that exist in the source tree
(`internal/cmd/commit.go`, `internal/git/git.go`): commit-message trailer
handling, porcelain-status parsing, and the commit entry point's
message/error logic.  Go strings are modelled as `List Char` and the
stateless message-building core of each function is translated directly.

Part B models the Risk Limit Enforcement & Aggregation Engine.  The
repository carries only its design documents (`spec.md`, the risk
framework specification), not an implementation, so every definition in
Part B is modelled from the spec, faithful to its words: operational
state machine, drawdown metric, dynamic adjustment multipliers, the
pre-trade validator, the portfolio aggregator's serialized reservation
discipline, the limit registry's validated atomic swap, and the
cross-strategy proportional split.  Monetary quantities and multipliers
are rationals.
-/

/-! ### Part A: embeddings of the Go source -/

/-- The cutset of `strings.TrimRight(message, "\n\r\t ")` in
`appendTrailers` (commit.go). -/
def trailWS (c : Char) : Bool :=
  c = '\n' || c = '\r' || c = '\t' || c = ' '

/-- `strings.TrimRight(s, "\n\r\t ")`: drop trailing whitespace
characters. -/
def trimRightWS (s : List Char) : List Char :=
  (s.reverse.dropWhile trailWS).reverse

/-- `appendTrailers` from commit.go: trim trailing whitespace from the
message, then a blank-line separator, then each trailer on its own line
terminated by a newline. -/
def appendTrailers (message : List Char) (trailers : List (List Char)) : List Char :=
  trimRightWS message ++ '\n' :: '\n' :: (trailers.map (fun t => t ++ ['\n'])).flatten

/-- `GitStatus` from git.go. -/
structure GitStatus where
  clean : Bool
  modified : List (List Char)
  added : List (List Char)
  deleted : List (List Char)
  untracked : List (List Char)
deriving DecidableEq

/-- The body of the `for` loop in `Git.Status` (git.go): skip lines
shorter than 3, split into the two-character code and the file name, and
dispatch on the code with the same `switch` priority as the Go code
(`M` before `A` before `D` before `?`). -/
def classifyLine (st : GitStatus) (line : List Char) : GitStatus :=
  if line.length < 3 then st
  else if 'M' ∈ line.take 2 then { st with modified := st.modified ++ [line.drop 3] }
  else if 'A' ∈ line.take 2 then { st with added := st.added ++ [line.drop 3] }
  else if 'D' ∈ line.take 2 then { st with deleted := st.deleted ++ [line.drop 3] }
  else if '?' ∈ line.take 2 then { st with untracked := st.untracked ++ [line.drop 3] }
  else st

/-- `Git.Status` (git.go) applied to the porcelain output string: empty
output is clean; otherwise the output is split on newlines and each line
is classified. -/
def statusOf (out : List Char) : GitStatus :=
  if out = [] then ⟨true, [], [], [], []⟩
  else (List.splitOn '\n' out).foldl classifyLine ⟨false, [], [], [], []⟩

/-- `Git.HasUncommittedChanges` (git.go), success path: the negation of
`Status().Clean`. -/
def hasUncommittedChanges (out : List Char) : Bool :=
  !(statusOf out).clean

/-- The message-building and error core of `runCommit` (commit.go).
`agentTrailers` stands for the result of `buildAgentTrailers()`, which
queries the environment.  Returns the error or the final `-m` message
handed to git. -/
def runCommitMessage (msg : List Char) (amend noEdit noTrailers : Bool)
    (agentTrailers : List (List Char)) : Except (List Char) (List Char) :=
  if msg = [] ∧ amend = false ∧ noEdit = false then
    .error ("commit message required (-m)".data)
  else if noTrailers = false ∧ msg ≠ [] ∧ agentTrailers ≠ [] then
    .ok (appendTrailers msg agentTrailers)
  else
    .ok msg

/-- Declarative selector for `Modified`: a line of length at least 3
whose code contains `M` yields its file name. -/
def modSel (l : List Char) : Option (List Char) :=
  if 3 ≤ l.length ∧ 'M' ∈ l.take 2 then some (l.drop 3) else none

/-- Declarative selector for `Added`: code contains `A` and not `M`. -/
def addSel (l : List Char) : Option (List Char) :=
  if 3 ≤ l.length ∧ 'M' ∉ l.take 2 ∧ 'A' ∈ l.take 2 then some (l.drop 3) else none

/-- Declarative selector for `Deleted`: code contains `D` and neither
`M` nor `A`. -/
def delSel (l : List Char) : Option (List Char) :=
  if 3 ≤ l.length ∧ 'M' ∉ l.take 2 ∧ 'A' ∉ l.take 2 ∧ 'D' ∈ l.take 2 then
    some (l.drop 3)
  else none

/-- Declarative selector for `Untracked`: code contains `?` and none of
`M`, `A`, `D`. -/
def untSel (l : List Char) : Option (List Char) :=
  if 3 ≤ l.length ∧ 'M' ∉ l.take 2 ∧ 'A' ∉ l.take 2 ∧ 'D' ∉ l.take 2 ∧
      '?' ∈ l.take 2 then
    some (l.drop 3)
  else none

/-- Declarative bucket for `Modified` over a whole porcelain output;
its condition is mutually exclusive with the other three buckets. -/
def modifiedSpec (out : List Char) : List (List Char) :=
  (List.splitOn '\n' out).filterMap modSel

/-- Declarative bucket for `Added`. -/
def addedSpec (out : List Char) : List (List Char) :=
  (List.splitOn '\n' out).filterMap addSel

/-- Declarative bucket for `Deleted`. -/
def deletedSpec (out : List Char) : List (List Char) :=
  (List.splitOn '\n' out).filterMap delSel

/-- Declarative bucket for `Untracked`. -/
def untrackedSpec (out : List Char) : List (List Char) :=
  (List.splitOn '\n' out).filterMap untSel

/-! ### Part B: the risk engine, modelled from the spec -/

/-- Modelled from the spec: `OperationalMode` (spec.md section 3); the
engine's implementation is missing from the source tree. -/
inductive OperationalMode
  | Normal
  | SoftWarning
  | SoftReduced
  | StrategyHalted (strategyId : String)
  | AccountEmergency
deriving DecidableEq

/-- Restrictiveness rank of a mode: larger is more restrictive, in the
order the spec lists the modes. -/
def modeRank : OperationalMode → ℕ
  | .Normal => 0
  | .SoftWarning => 1
  | .SoftReduced => 2
  | .StrategyHalted _ => 3
  | .AccountEmergency => 4

/-- Modelled from the spec: drawdown `(peakEquity - currentEquity) /
peakEquity` (spec.md section 4.2). -/
def drawdown (peakEquity currentEquity : ℚ) : ℚ :=
  (peakEquity - currentEquity) / peakEquity

/-- Modelled from the spec: default account emergency threshold, 25%
(spec.md section 4.7). -/
def emergencyThreshold : ℚ := 25 / 100

/-- Modelled from the spec: default strategy halt threshold, 20%
(spec.md section 4.7). -/
def haltThreshold : ℚ := 20 / 100

/-- Modelled from the spec: the metric inputs that drive the automatic
transitions of the operational state machine (spec.md section 4.7). -/
structure MetricInputs where
  accountDrawdown : ℚ
  strategyDrawdown : ℚ
  softWarningBreached : Bool
  softReductionBreached : Bool
  strategyId : String

/-- Modelled from the spec: the per-mode automatic transitions below
the emergency check (spec.md section 4.7).  Resume actions are external
and are not part of the automatic machine. -/
def autoStepBelow : OperationalMode → MetricInputs → OperationalMode
  | .Normal, inp => if inp.softWarningBreached then .SoftWarning else .Normal
  | .SoftWarning, inp => if inp.softReductionBreached then .SoftReduced else .SoftWarning
  | .SoftReduced, inp =>
      if haltThreshold ≤ inp.strategyDrawdown then .StrategyHalted inp.strategyId
      else .SoftReduced
  | .StrategyHalted id, _ => .StrategyHalted id
  | .AccountEmergency, _ => .AccountEmergency

/-- Modelled from the spec: one automatic (metric-driven) transition of
the operational state machine (spec.md section 4.7): `Any →
AccountEmergency` on account drawdown at or above the emergency
threshold; otherwise the per-mode downward transition `autoStepBelow`. -/
def autoStep (m : OperationalMode) (inp : MetricInputs) : OperationalMode :=
  if emergencyThreshold ≤ inp.accountDrawdown then .AccountEmergency
  else autoStepBelow m inp

/-- Modelled from the spec: the recorded peak equity of the worked
example, $102,340.56 (spec.md section 8). -/
def examplePeakEquity : ℚ := 10234056 / 100

/-- Modelled from the spec: performance tier multiplier from rolling
Sharpe and drawdown (spec.md section 4.3). -/
def perfTierMultiplier (sharpe dd : ℚ) : ℚ :=
  if 3 / 2 ≤ sharpe ∧ dd < 1 / 10 then 1
  else if 4 / 5 ≤ sharpe ∧ dd < 3 / 20 then 4 / 5
  else if 3 / 10 ≤ sharpe ∧ dd < 1 / 5 then 1 / 2
  else 0

/-- Modelled from the spec: volatility regime multiplier from the
market-wide volatility index band, `{1.2, 1.0, 0.7, 0.4}` (spec.md
section 4.3). -/
def volRegimeMultiplier (vix : ℚ) : ℚ :=
  if vix < 15 then 6 / 5
  else if vix ≤ 25 then 1
  else if vix ≤ 35 then 7 / 10
  else 2 / 5

/-- Modelled from the spec: clamp the combined multiplier to
`[0.1, 1.5]` (spec.md section 4.3). -/
def clampMultiplier (x : ℚ) : ℚ :=
  max (1 / 10) (min (3 / 2) x)

/-- Modelled from the spec: the three multipliers combined
multiplicatively, then clamped (spec.md section 4.3).  The spec names a
market regime multiplier without a numeric table, so it enters as an
arbitrary rational input `mkt`. -/
def combinedMultiplier (sharpe dd vix mkt : ℚ) : ℚ :=
  clampMultiplier (perfTierMultiplier sharpe dd * volRegimeMultiplier vix * mkt)

/-- Modelled from the spec: an order as seen by the validator, reduced
to the fields the limit decision uses (spec.md section 3). -/
structure PendingOrder where
  symbol : String
  quantity : ℕ
  strategyId : String

/-- Modelled from the spec: the decision-time snapshot the validator
consults — mode, the symbol's committed value, its effective limit, the
price, the soft-limit factor, the dynamic multiplier, and the minimum
viable position value (spec.md section 4.6). -/
structure ValidationCtx where
  mode : OperationalMode
  currentValue : ℚ
  effectiveLimit : ℚ
  price : ℚ
  softFactor : ℚ
  dynMult : ℚ
  minViable : ℚ

/-- Modelled from the spec: `ValidationResult` (spec.md section 3),
reduced to the approved flag, the adjusted size in shares, and the
rejection codes. -/
structure ValidationResult where
  approved : Bool
  adjustedSize : ℕ
  rejections : List String
deriving DecidableEq

/-- Modelled from the spec: whether the operational mode forbids new
orders for the order's strategy or account (spec.md sections 4.6, 4.7). -/
def modeForbids (m : OperationalMode) (sid : String) : Bool :=
  match m with
  | .AccountEmergency => true
  | .StrategyHalted id => id = sid
  | _ => false

/-- Modelled from the spec: the largest share count whose added value
keeps the symbol at or under its effective limit. -/
def maxSharesWithin (limit current price : ℚ) : ℕ :=
  (⌊(limit - current) / price⌋).toNat

/-- Modelled from the spec: steps (c)-(f) of the validation sequence —
the requested share count scaled by the soft-limit factor and the
dynamic multiplier, downgraded to the largest share count the
reservation admits (spec.md section 4.6). -/
def scaledSize (ctx : ValidationCtx) (ord : PendingOrder) : ℕ :=
  min ((⌊(ord.quantity : ℚ) * ctx.softFactor * ctx.dynMult⌋).toNat)
    (maxSharesWithin ctx.effectiveLimit ctx.currentValue ctx.price)

/-- Modelled from the spec: `validate(order) -> ValidationResult`
(spec.md section 4.6): (a) mode gate; (b) hard-limit rejection when even
the minimum viable size cannot fit; (c)-(f) scaled, downgraded size,
rejecting below the minimum viable position value. -/
def validateOrder (ctx : ValidationCtx) (ord : PendingOrder) : ValidationResult :=
  if modeForbids ctx.mode ord.strategyId then
    ⟨false, 0, ["InvalidModeForOrder"]⟩
  else if ctx.effectiveLimit < ctx.currentValue + ctx.minViable then
    ⟨false, 0, ["HardLimitViolation"]⟩
  else if (scaledSize ctx ord : ℚ) * ctx.price < ctx.minViable then
    ⟨false, 0, ["InsufficientReservationCapacity"]⟩
  else
    ⟨true, scaledSize ctx ord, []⟩

/-- Modelled from the spec: the aggregator's per-symbol state — the
committed position value and the live reservation amounts (spec.md
sections 3, 4.4). -/
structure AggState where
  committed : ℚ
  reservations : List ℚ

/-- Modelled from the spec: committed positions plus live reservations
for the symbol. -/
def exposure (s : AggState) : ℚ :=
  s.committed + s.reservations.sum

/-- Modelled from the spec: the operations serialized per resource key
by the aggregator — `reserve`, `release(handle)`, and `commit(handle)`
(spec.md section 4.4).  Handles are indices into the reservation list. -/
inductive AggOp
  | reserve (amount : ℚ)
  | release (idx : ℕ)
  | commitFill (idx : ℕ)

/-- Modelled from the spec: one serialized aggregator operation.
`reserve` atomically checks that the limit still holds after including
the reservation and fails (leaving the state unchanged) otherwise;
`release` drops a reservation; `commitFill` converts a reservation into
committed position value (spec.md section 4.4). -/
def applyOp (limit : ℚ) (s : AggState) : AggOp → AggState
  | .reserve a =>
      if 0 ≤ a ∧ exposure s + a ≤ limit then
        { s with reservations := s.reservations ++ [a] }
      else s
  | .release i => { s with reservations := s.reservations.eraseIdx i }
  | .commitFill i =>
      match s.reservations[i]? with
      | some r =>
          { committed := s.committed + r, reservations := s.reservations.eraseIdx i }
      | none => s

/-- Modelled from the spec: the aggregator invariant — committed
positions plus outstanding reservations never exceed the effective
limit, and every live reservation is a nonnegative hold (spec.md
section 3). -/
def aggInv (limit : ℚ) (s : AggState) : Prop :=
  exposure s ≤ limit ∧ ∀ r ∈ s.reservations, 0 ≤ r

/-- Modelled from the spec: a monotonic (warning, reduction, halt)
threshold triple of a `LimitSet` (spec.md section 3). -/
structure LimitTriple where
  warning : ℚ
  reduction : ℚ
  halt : ℚ
deriving DecidableEq

/-- Modelled from the spec: a `LimitSet` version, reduced to
representative hard limits and one soft-limit triple (spec.md section
3). -/
structure LimitSet where
  maxPositionPct : ℚ
  maxPositionDollars : ℚ
  minPositionDollars : ℚ
  strategyAllocationPct : ℚ
  drawdownLimits : LimitTriple
deriving DecidableEq

/-- Modelled from the spec: the validation a config reload performs
before `swap` — positive, coherent hard limits and a monotonic soft
triple (spec.md sections 4.1, 7). -/
def validLimitSet (ls : LimitSet) : Prop :=
  0 < ls.maxPositionPct ∧ ls.maxPositionPct ≤ 1 ∧
  0 < ls.maxPositionDollars ∧
  0 < ls.minPositionDollars ∧ ls.minPositionDollars ≤ ls.maxPositionDollars ∧
  0 < ls.strategyAllocationPct ∧ ls.strategyAllocationPct ≤ 1 ∧
  ls.drawdownLimits.warning ≤ ls.drawdownLimits.reduction ∧
  ls.drawdownLimits.reduction ≤ ls.drawdownLimits.halt

instance (ls : LimitSet) : Decidable (validLimitSet ls) := by
  unfold validLimitSet
  infer_instance

/-- Modelled from the spec: the Limit Registry, an immutable-per-version
holder of the active `LimitSet` (spec.md section 4.1). -/
structure Registry where
  active : LimitSet
deriving DecidableEq

/-- Modelled from the spec: `current() -> LimitSet` / `GetConfig()`
(spec.md sections 4.1, 6). -/
def getConfig (r : Registry) : LimitSet := r.active

/-- Modelled from the spec: `swap(newSet)` — atomic whole-value replace
(spec.md section 4.1). -/
def swapConfig (_ : Registry) (ls : LimitSet) : Registry := { active := ls }

/-- Modelled from the spec: the reload error taxonomy entry
`ConfigValidationFailure` (spec.md section 7). -/
inductive ConfigError
  | ConfigValidationFailure
deriving DecidableEq

/-- Modelled from the spec: `UpdateConfig(LimitSet)` — validate, then
either atomically swap or reject leaving the prior set active (spec.md
sections 4.1, 6, 7). -/
def updateConfig (r : Registry) (ls : LimitSet) : Registry × Option ConfigError :=
  if validLimitSet ls then (swapConfig r ls, none)
  else (r, some .ConfigValidationFailure)

/-- Modelled from the spec: the Cross-Strategy Coordinator's
proportional split — when the combined desired value exceeds the
available capacity, each strategy's desired share count is scaled by
`availableCapacity / totalDesiredSize` and floored to whole shares
(spec.md section 4.5). -/
def proportionalSplit (availableCapacity price : ℚ) (desires : List ℕ) : List ℕ :=
  let totalDesired : ℚ := (desires.sum : ℚ) * price
  if totalDesired ≤ availableCapacity then desires
  else desires.map fun d => (⌊(d : ℚ) * (availableCapacity / totalDesired)⌋).toNat

/-! ### Helper lemmas -/

/-- The per-mode downward machine never lowers the restrictiveness
rank. -/
theorem modeRank_le_autoStepBelow (m : OperationalMode) (inp : MetricInputs) :
    modeRank m ≤ modeRank (autoStepBelow m inp) := by
  cases m with
  | Normal =>
      show modeRank _ ≤ modeRank (if inp.softWarningBreached = true then
        OperationalMode.SoftWarning else OperationalMode.Normal)
      split <;> simp [modeRank]
  | SoftWarning =>
      show modeRank _ ≤ modeRank (if inp.softReductionBreached = true then
        OperationalMode.SoftReduced else OperationalMode.SoftWarning)
      split <;> simp [modeRank]
  | SoftReduced =>
      show modeRank _ ≤ modeRank (if haltThreshold ≤ inp.strategyDrawdown then
        OperationalMode.StrategyHalted inp.strategyId else OperationalMode.SoftReduced)
      split <;> simp [modeRank]
  | StrategyHalted id => exact Nat.le_refl _
  | AccountEmergency => exact Nat.le_refl _

/-- One automatic transition never moves toward a less restrictive
mode. -/
theorem modeRank_le_autoStep (m : OperationalMode) (inp : MetricInputs) :
    modeRank m ≤ modeRank (autoStep m inp) := by
  unfold autoStep
  split_ifs with he
  · cases m <;> simp [modeRank]
  · exact modeRank_le_autoStepBelow m inp

/-! ### Claims -/

/-- C4: for every sequence of automatic (metric-driven) transitions of
the operational state machine, the mode never moves toward a less
restrictive state: the restrictiveness rank after folding any list of
metric inputs through `autoStep` is at least the starting rank.  Upward
moves can therefore only come from the external resume actions, which
are not part of `autoStep`. -/
theorem autoStep_monotone_restrictive (m : OperationalMode) (inps : List MetricInputs) :
    modeRank m ≤ modeRank (inps.foldl autoStep m) := by
  induction inps generalizing m with
  | nil => exact Nat.le_refl _
  | cons i rest ih =>
      exact Nat.le_trans (modeRank_le_autoStep m i) (ih (autoStep m i))

/-- C6: for every Sharpe, drawdown, volatility-index and market-regime
input — including tier-4 strategies whose performance tier multiplier is
`0.0` — the combined multiplier lies in the closed interval
`[0.1, 1.5]` after clamping. -/
theorem combinedMultiplier_clamped (sharpe dd vix mkt : ℚ) :
    1 / 10 ≤ combinedMultiplier sharpe dd vix mkt ∧
      combinedMultiplier sharpe dd vix mkt ≤ 3 / 2 := by
  unfold combinedMultiplier clampMultiplier
  constructor
  · exact le_max_left _ _
  · exact max_le (by norm_num) (min_le_left _ _)

/-- C7: with two strategies requesting 30 and 25 shares of a symbol
priced at $400, a $15,000 symbol limit and zero current position, the
proportional split allocates exactly 20 and 17 shares — 37 shares,
$14,800, within the limit. -/
theorem proportionalSplit_example :
    proportionalSplit 15000 400 [30, 25] = [20, 17] ∧
      (((proportionalSplit 15000 400 [30, 25]).sum : ℚ) * 400 = 14800 ∧
        ((proportionalSplit 15000 400 [30, 25]).sum : ℚ) * 400 ≤ 15000) := by
  have h : proportionalSplit 15000 400 [30, 25] = [20, 17] := by
    unfold proportionalSplit
    norm_num
    constructor
    · rfl
    · rfl
  refine ⟨h, ?_, ?_⟩ <;> rw [h] <;> norm_num

/-- C5: a configuration reload rejected with `ConfigValidationFailure`
leaves the registry — and hence `GetConfig()` — exactly as it was
before the attempt; no partially applied limit values are observable. -/
theorem updateConfig_rejected_unchanged (r : Registry) (ls : LimitSet)
    (h : (updateConfig r ls).2 = some ConfigError.ConfigValidationFailure) :
    (updateConfig r ls).1 = r ∧ getConfig (updateConfig r ls).1 = getConfig r := by
  unfold updateConfig at *
  split at h
  · simp at h
  · simp_all

/-- Witness for C5 at a concrete invalid limit set (zero
`maxPositionPct`). -/
theorem updateConfig_rejected_unchanged_w :
    (updateConfig ⟨⟨15/100, 25000, 500, 40/100, ⟨1/10, 15/100, 1/5⟩⟩⟩
        ⟨0, 25000, 500, 40/100, ⟨1/10, 15/100, 1/5⟩⟩).2 =
      some ConfigError.ConfigValidationFailure ∧
    (updateConfig ⟨⟨15/100, 25000, 500, 40/100, ⟨1/10, 15/100, 1/5⟩⟩⟩
        ⟨0, 25000, 500, 40/100, ⟨1/10, 15/100, 1/5⟩⟩).1 =
      ⟨⟨15/100, 25000, 500, 40/100, ⟨1/10, 15/100, 1/5⟩⟩⟩ := by
  have h : (updateConfig ⟨⟨15/100, 25000, 500, 40/100, ⟨1/10, 15/100, 1/5⟩⟩⟩
      ⟨0, 25000, 500, 40/100, ⟨1/10, 15/100, 1/5⟩⟩).2 =
      some ConfigError.ConfigValidationFailure := by
    unfold updateConfig
    rw [if_neg]
    intro hv
    exact absurd hv.1 (by norm_num)
  exact ⟨h, (updateConfig_rejected_unchanged _ _ h).1⟩

/-- Drawdown at or above the emergency threshold forces
`AccountEmergency` from any mode. -/
theorem autoStep_emergency (m : OperationalMode) (inp : MetricInputs)
    (h : emergencyThreshold ≤ inp.accountDrawdown) :
    autoStep m inp = OperationalMode.AccountEmergency := by
  unfold autoStep
  rw [if_pos h]

/-- Drawdown strictly below the emergency threshold never produces
`AccountEmergency` from a non-emergency mode. -/
theorem autoStep_not_emergency (m : OperationalMode) (inp : MetricInputs)
    (hm : m ≠ OperationalMode.AccountEmergency)
    (h : inp.accountDrawdown < emergencyThreshold) :
    autoStep m inp ≠ OperationalMode.AccountEmergency := by
  unfold autoStep
  rw [if_neg (not_le.mpr h)]
  cases m with
  | Normal =>
      show (if inp.softWarningBreached = true then OperationalMode.SoftWarning
        else OperationalMode.Normal) ≠ OperationalMode.AccountEmergency
      split <;> simp
  | SoftWarning =>
      show (if inp.softReductionBreached = true then OperationalMode.SoftReduced
        else OperationalMode.SoftWarning) ≠ OperationalMode.AccountEmergency
      split <;> simp
  | SoftReduced =>
      show (if haltThreshold ≤ inp.strategyDrawdown then
          OperationalMode.StrategyHalted inp.strategyId
        else OperationalMode.SoftReduced) ≠ OperationalMode.AccountEmergency
      split <;> simp
  | StrategyHalted id =>
      show OperationalMode.StrategyHalted id ≠ OperationalMode.AccountEmergency
      simp
  | AccountEmergency => exact absurd rfl hm

/-- C3: with the recorded peak $102,340.56, an account equity giving a
drawdown of exactly 25.0% drives every mode to `AccountEmergency`,
while an equity giving a drawdown of 24.99% never does from a
non-emergency mode: the emergency transition fires exactly at the 25%
threshold. -/
theorem accountEmergency_threshold_boundary (m : OperationalMode)
    (hm : m ≠ OperationalMode.AccountEmergency) (sdd : ℚ) (sw sr : Bool) (sid : String) :
    drawdown examplePeakEquity (examplePeakEquity * (3 / 4)) = 25 / 100 ∧
    drawdown examplePeakEquity (examplePeakEquity * (7501 / 10000)) = 2499 / 10000 ∧
    autoStep m ⟨drawdown examplePeakEquity (examplePeakEquity * (3 / 4)), sdd, sw, sr, sid⟩ =
      OperationalMode.AccountEmergency ∧
    autoStep m ⟨drawdown examplePeakEquity (examplePeakEquity * (7501 / 10000)), sdd, sw, sr, sid⟩ ≠
      OperationalMode.AccountEmergency := by
  have h25 : drawdown examplePeakEquity (examplePeakEquity * (3 / 4)) = 25 / 100 := by
    unfold drawdown examplePeakEquity
    norm_num
  have h2499 : drawdown examplePeakEquity (examplePeakEquity * (7501 / 10000)) = 2499 / 10000 := by
    unfold drawdown examplePeakEquity
    norm_num
  have hc25 : emergencyThreshold ≤ (MetricInputs.mk
      (drawdown examplePeakEquity (examplePeakEquity * (3 / 4))) sdd sw sr sid).accountDrawdown := by
    show emergencyThreshold ≤ drawdown examplePeakEquity (examplePeakEquity * (3 / 4))
    rw [h25]
    unfold emergencyThreshold
    norm_num
  have hc2499 : (MetricInputs.mk
      (drawdown examplePeakEquity (examplePeakEquity * (7501 / 10000))) sdd sw sr sid).accountDrawdown <
      emergencyThreshold := by
    show drawdown examplePeakEquity (examplePeakEquity * (7501 / 10000)) < emergencyThreshold
    rw [h2499]
    unfold emergencyThreshold
    norm_num
  exact ⟨h25, h2499, autoStep_emergency m _ hc25, autoStep_not_emergency m _ hm hc2499⟩

/-- Witness for C3 from `Normal` with idle secondary metrics. -/
theorem accountEmergency_threshold_boundary_w :
    autoStep OperationalMode.Normal
        ⟨drawdown examplePeakEquity (examplePeakEquity * (3 / 4)), 0, false, false, "s"⟩ =
      OperationalMode.AccountEmergency ∧
    autoStep OperationalMode.Normal
        ⟨drawdown examplePeakEquity (examplePeakEquity * (7501 / 10000)), 0, false, false, "s"⟩ ≠
      OperationalMode.AccountEmergency :=
  ⟨(accountEmergency_threshold_boundary .Normal (by decide) 0 false false "s").2.2.1,
   (accountEmergency_threshold_boundary .Normal (by decide) 0 false false "s").2.2.2⟩

/-- When the reservation cap is positive, its value at the price fits
the remaining capacity below the effective limit. -/
theorem cap_mul_price_le (limit current price : ℚ) (hp : 0 < price)
    (hpos : 0 < maxSharesWithin limit current price) :
    (maxSharesWithin limit current price : ℚ) * price ≤ limit - current := by
  unfold maxSharesWithin at *
  have hnn : 0 ≤ ⌊(limit - current) / price⌋ := by
    by_contra hneg
    push_neg at hneg
    rw [Int.toNat_of_nonpos hneg.le] at hpos
    exact lt_irrefl 0 hpos
  have hcast : ((⌊(limit - current) / price⌋.toNat : ℕ) : ℚ) =
      ((⌊(limit - current) / price⌋ : ℤ) : ℚ) := by
    exact_mod_cast Int.toNat_of_nonneg hnn
  rw [hcast]
  calc ((⌊(limit - current) / price⌋ : ℤ) : ℚ) * price
      ≤ ((limit - current) / price) * price :=
        mul_le_mul_of_nonneg_right (Int.floor_le _) hp.le
    _ = limit - current := div_mul_cancel₀ _ (ne_of_gt hp)

/-- C1: whenever `ValidateOrder` approves an order, the resulting
position value — current committed value plus the approved size at the
price — satisfies the symbol's effective limit at decision time.  In
particular an order whose requested size would breach the limit is
never approved unadjusted: it is rejected or downgraded to a size that
fits. -/
theorem validateOrder_respects_limit (ctx : ValidationCtx) (ord : PendingOrder)
    (hp : 0 < ctx.price) (hmv : 0 ≤ ctx.minViable)
    (happ : (validateOrder ctx ord).approved = true) :
    ctx.currentValue + ((validateOrder ctx ord).adjustedSize : ℚ) * ctx.price ≤
      ctx.effectiveLimit := by
  by_cases h1 : modeForbids ctx.mode ord.strategyId = true
  · exfalso
    unfold validateOrder at happ
    rw [if_pos h1] at happ
    simp at happ
  by_cases h2 : ctx.effectiveLimit < ctx.currentValue + ctx.minViable
  · exfalso
    unfold validateOrder at happ
    rw [if_neg h1, if_pos h2] at happ
    simp at happ
  by_cases h3 : (scaledSize ctx ord : ℚ) * ctx.price < ctx.minViable
  · exfalso
    unfold validateOrder at happ
    rw [if_neg h1, if_neg h2, if_pos h3] at happ
    simp at happ
  have hres : validateOrder ctx ord = ⟨true, scaledSize ctx ord, []⟩ := by
    unfold validateOrder
    rw [if_neg h1, if_neg h2, if_neg h3]
  rw [hres]
  rw [not_lt] at h2 h3
  show ctx.currentValue + ((scaledSize ctx ord : ℕ) : ℚ) * ctx.price ≤ ctx.effectiveLimit
  rcases Nat.eq_zero_or_pos (scaledSize ctx ord) with hz | hpos
  · rw [hz]
    push_cast
    linarith
  · have hcappos : 0 < maxSharesWithin ctx.effectiveLimit ctx.currentValue ctx.price := by
      have := Nat.min_le_right
        ((⌊(ord.quantity : ℚ) * ctx.softFactor * ctx.dynMult⌋).toNat)
        (maxSharesWithin ctx.effectiveLimit ctx.currentValue ctx.price)
      unfold scaledSize at hpos
      omega
    have hle1 : ((scaledSize ctx ord : ℕ) : ℚ) ≤
        ((maxSharesWithin ctx.effectiveLimit ctx.currentValue ctx.price : ℕ) : ℚ) := by
      have hle0 : scaledSize ctx ord ≤
          maxSharesWithin ctx.effectiveLimit ctx.currentValue ctx.price := by
        unfold scaledSize
        exact Nat.min_le_right _ _
      exact_mod_cast hle0
    have hcap := cap_mul_price_le ctx.effectiveLimit ctx.currentValue ctx.price hp hcappos
    have hmul : ((scaledSize ctx ord : ℕ) : ℚ) * ctx.price ≤
        ((maxSharesWithin ctx.effectiveLimit ctx.currentValue ctx.price : ℕ) : ℚ) * ctx.price :=
      mul_le_mul_of_nonneg_right hle1 hp.le
    linarith

/-- Witness for C1: a Normal-mode order for 30 shares at $400 against a
$15,000 limit with zero current position is approved at 30 shares,
$12,000, within the limit. -/
theorem validateOrder_respects_limit_w :
    (validateOrder ⟨.Normal, 0, 15000, 400, 1, 1, 500⟩ ⟨"MSFT", 30, "alpha"⟩).approved = true ∧
    (0 : ℚ) +
        ((validateOrder ⟨.Normal, 0, 15000, 400, 1, 1, 500⟩ ⟨"MSFT", 30, "alpha"⟩).adjustedSize : ℚ) *
          400 ≤ 15000 := by
  have happ : (validateOrder ⟨.Normal, 0, 15000, 400, 1, 1, 500⟩
      ⟨"MSFT", 30, "alpha"⟩).approved = true := by
    unfold validateOrder scaledSize maxSharesWithin modeForbids
    norm_num
    rw [show Int.toNat 30 = 30 from rfl]
    norm_num
  exact ⟨happ, validateOrder_respects_limit ⟨.Normal, 0, 15000, 400, 1, 1, 500⟩
    ⟨"MSFT", 30, "alpha"⟩ (by norm_num) (by norm_num) happ⟩

/-- An element looked up by index is a member of the list. -/
theorem mem_of_getElemOpt {l : List ℚ} {i : ℕ} {a : ℚ} (h : l[i]? = some a) : a ∈ l := by
  obtain ⟨hlt, rfl⟩ := List.getElem?_eq_some_iff.mp h
  exact List.getElem_mem hlt

/-- Removing the element at an index subtracts exactly its value from
the list sum. -/
theorem sum_eraseIdx_add (l : List ℚ) (i : ℕ) :
    (l.eraseIdx i).sum + (l[i]?.getD 0) = l.sum := by
  induction l generalizing i with
  | nil => simp
  | cons a t ih =>
      cases i with
      | zero => simp [List.eraseIdx_cons_zero, add_comm]
      | succ j =>
          simp only [List.eraseIdx_cons_succ, List.sum_cons, List.getElem?_cons_succ]
          rw [add_assoc, ih j]

/-- One serialized aggregator operation preserves the exposure
invariant. -/
theorem applyOp_preserves_inv (limit : ℚ) (s : AggState) (op : AggOp)
    (h : aggInv limit s) : aggInv limit (applyOp limit s op) := by
  obtain ⟨hle, hnn⟩ := h
  cases op with
  | reserve a =>
      show aggInv limit (if 0 ≤ a ∧ exposure s + a ≤ limit then
        { s with reservations := s.reservations ++ [a] } else s)
      split_ifs with hc
      · obtain ⟨ha, hsum⟩ := hc
        refine ⟨?_, ?_⟩
        · show s.committed + (s.reservations ++ [a]).sum ≤ limit
          unfold exposure at hsum
          rw [List.sum_append]
          simp only [List.sum_cons, List.sum_nil, add_zero]
          linarith
        · intro r hr
          rcases List.mem_append.mp hr with hr | hr
          · exact hnn r hr
          · rw [List.mem_singleton.mp hr]
            exact ha
      · exact ⟨hle, hnn⟩
  | release i =>
      refine ⟨?_, ?_⟩
      · show s.committed + (s.reservations.eraseIdx i).sum ≤ limit
        have hsum := sum_eraseIdx_add s.reservations i
        have hge : 0 ≤ s.reservations[i]?.getD 0 := by
          cases hx : s.reservations[i]? with
          | none => simp
          | some r => simpa using hnn r (mem_of_getElemOpt hx)
        unfold exposure at hle
        linarith
      · intro r hr
        exact hnn r (List.eraseIdx_subset _ _ hr)
  | commitFill i =>
      show aggInv limit (match s.reservations[i]? with
        | some r =>
            ({ committed := s.committed + r,
               reservations := s.reservations.eraseIdx i } : AggState)
        | none => s)
      cases hx : s.reservations[i]? with
      | none => exact ⟨hle, hnn⟩
      | some r =>
          refine ⟨?_, ?_⟩
          · show s.committed + r + (s.reservations.eraseIdx i).sum ≤ limit
            have hsum := sum_eraseIdx_add s.reservations i
            rw [hx] at hsum
            simp only [Option.getD_some] at hsum
            unfold exposure at hle
            linarith
          · intro q hq
            exact hnn q (List.eraseIdx_subset _ _ hq)

/-- C2: the aggregator serializes `reserve` / `release` / `commit`
calls per resource key, so every concurrent execution is some sequence
of these atomic operations; along any such sequence, started from a
state satisfying the limit invariant, the sum of committed position
value plus live reservations never exceeds the effective limit — in
particular every prefix of the sequence (every observable point) keeps
the invariant, and no interleaving produces a transient overcommit. -/
theorem reserve_no_overcommit (limit : ℚ) (s : AggState) (ops : List AggOp)
    (h : aggInv limit s) : aggInv limit (ops.foldl (applyOp limit) s) := by
  induction ops generalizing s with
  | nil => exact h
  | cons op rest ih => exact ih _ (applyOp_preserves_inv limit s op h)

/-- Witness for C2: two competing reservations of $12,000 and $10,000
against a $15,000 limit, then a fill commit and another reservation. -/
theorem reserve_no_overcommit_w :
    aggInv 15000 ⟨0, []⟩ ∧
      aggInv 15000
        ([AggOp.reserve 12000, AggOp.reserve 10000, AggOp.commitFill 0,
            AggOp.reserve 3000].foldl (applyOp 15000) ⟨0, []⟩) :=
  ⟨⟨by norm_num [exposure], by simp⟩,
   reserve_no_overcommit 15000 ⟨0, []⟩ _ ⟨by norm_num [exposure], by simp⟩⟩

/-- Trimming splits a string into the kept body and an all-whitespace
tail. -/
theorem trimRightWS_split (s : List Char) :
    s = trimRightWS s ++ (s.reverse.takeWhile trailWS).reverse ∧
      ∀ c ∈ (s.reverse.takeWhile trailWS).reverse, trailWS c = true := by
  constructor
  · conv_lhs => rw [← List.reverse_reverse s,
      ← List.takeWhile_append_dropWhile trailWS s.reverse]
    rw [List.reverse_append]
    rfl
  · intro c hc
    exact List.mem_takeWhile_imp (List.mem_reverse.mp hc)

/-- The trimmed body does not end in a whitespace character. -/
theorem trimRightWS_no_trailing (s : List Char) (c : Char)
    (h : (trimRightWS s).getLast? = some c) : trailWS c = false := by
  unfold trimRightWS at h
  rw [List.getLast?_reverse] at h
  have hd := List.head?_dropWhile_not trailWS s.reverse
  rw [h] at hd
  exact hd

/-- A block of newline-terminated lines appended to anything ending in
a newline still ends in a newline. -/
theorem getLast?_flatten_newline (ts : List (List Char)) :
    ∀ pre : List Char, pre.getLast? = some '\n' →
      (pre ++ (ts.map (fun t => t ++ ['\n'])).flatten).getLast? = some '\n' := by
  induction ts with
  | nil =>
      intro pre h
      simpa using h
  | cons t rest ih =>
      intro pre h
      rw [List.map_cons, List.flatten_cons, ← List.append_assoc]
      apply ih
      rw [List.getLast?_append, List.getLast?_append]
      rfl

/-- C8: for every message and non-empty trailer list, `appendTrailers`
removes exactly the trailing whitespace (the dropped tail is all
whitespace and the kept body ends in none), keeps the trimmed body
unchanged as a prefix, separates it from the trailers by one blank
line, puts each trailer on its own newline-terminated line, and the
result ends with a newline. -/
theorem appendTrailers_structure (message : List Char) (trailers : List (List Char))
    (hts : trailers ≠ []) :
    (∃ tail, message = trimRightWS message ++ tail ∧ ∀ c ∈ tail, trailWS c = true) ∧
    (∀ c, (trimRightWS message).getLast? = some c → trailWS c = false) ∧
    appendTrailers message trailers =
      trimRightWS message ++ '\n' :: '\n' :: (trailers.map (fun t => t ++ ['\n'])).flatten ∧
    (appendTrailers message trailers).getLast? = some '\n' := by
  refine ⟨⟨_, (trimRightWS_split message).1, (trimRightWS_split message).2⟩,
    fun c h => trimRightWS_no_trailing message c h, rfl, ?_⟩
  unfold appendTrailers
  have hsplit : trimRightWS message ++ '\n' :: '\n' ::
      (trailers.map (fun t => t ++ ['\n'])).flatten =
      (trimRightWS message ++ ['\n', '\n']) ++
        (trailers.map (fun t => t ++ ['\n'])).flatten := by
    simp
  rw [hsplit]
  apply getLast?_flatten_newline
  rw [List.getLast?_append]
  rfl

/-- Witness for C8 at a concrete message and single trailer. -/
theorem appendTrailers_structure_w :
    (["Rig: beads".data] : List (List Char)) ≠ [] ∧
      (appendTrailers "Fix bug\n".data ["Rig: beads".data]).getLast? = some '\n' :=
  ⟨by simp,
   (appendTrailers_structure "Fix bug\n".data ["Rig: beads".data] (by simp)).2.2.2⟩

/-- Folding `classifyLine` appends exactly the four disjoint
declarative buckets to the accumulator and never touches the clean
flag. -/
theorem foldl_classifyLine (lines : List (List Char)) (st : GitStatus) :
    lines.foldl classifyLine st =
      ⟨st.clean,
       st.modified ++ lines.filterMap modSel,
       st.added ++ lines.filterMap addSel,
       st.deleted ++ lines.filterMap delSel,
       st.untracked ++ lines.filterMap untSel⟩ := by
  induction lines generalizing st with
  | nil => simp
  | cons l rest ih =>
      rw [List.foldl_cons, ih (classifyLine st l)]
      simp only [List.filterMap_cons]
      by_cases h1 : l.length < 3
      · have h1a : ¬ (3 ≤ l.length) := by omega
        simp [classifyLine, h1, modSel, addSel, delSel, untSel, h1a]
      · have h1a : 3 ≤ l.length := by omega
        by_cases hM : 'M' ∈ l.take 2
        · simp [classifyLine, h1, hM, modSel, addSel, delSel, untSel, h1a,
            List.append_assoc]
        · by_cases hA : 'A' ∈ l.take 2
          · simp [classifyLine, h1, hM, hA, modSel, addSel, delSel, untSel, h1a,
              List.append_assoc]
          · by_cases hD : 'D' ∈ l.take 2
            · simp [classifyLine, h1, hM, hA, hD, modSel, addSel, delSel, untSel,
                h1a, List.append_assoc]
            · by_cases hQ : '?' ∈ l.take 2
              · simp [classifyLine, h1, hM, hA, hD, hQ, modSel, addSel, delSel,
                  untSel, h1a, List.append_assoc]
              · simp [classifyLine, h1, hM, hA, hD, hQ, modSel, addSel, delSel,
                  untSel, h1a]

/-- C9: `Status` reports clean exactly on empty porcelain output; each
bucket of the parsed status equals its declarative specification, whose
conditions are pairwise exclusive — so every line of length at least 3
lands in at most one bucket, and a line whose code contains `M` (such
as `AM`) is reported only under `Modified`; `HasUncommittedChanges` is
exactly the negation of clean. -/
theorem status_classification (out : List Char) :
    ((statusOf out).clean = true ↔ out = []) ∧
    (statusOf out).modified = modifiedSpec out ∧
    (statusOf out).added = addedSpec out ∧
    (statusOf out).deleted = deletedSpec out ∧
    (statusOf out).untracked = untrackedSpec out ∧
    (hasUncommittedChanges out = true ↔ (statusOf out).clean = false) := by
  unfold hasUncommittedChanges statusOf modifiedSpec addedSpec deletedSpec untrackedSpec
  split_ifs with h
  · subst h
    refine ⟨by simp, ?_, ?_, ?_, ?_, by simp⟩ <;>
      simp [List.splitOn, modSel, addSel, delSel, untSel]
  · rw [foldl_classifyLine]
    simp [h]

/-- C10: `runCommit` fails with "commit message required (-m)" exactly
when the `-m` message is empty and neither `--amend` nor `--no-edit`
is set; the agent trailers are appended to the message only when a
non-empty `-m` message is given and `--no-trailers` is unset (and the
environment produced any trailers) — so amend and no-edit commits
invoked without `-m` always pass the message through unchanged. -/
theorem runCommitMessage_spec (msg : List Char) (amend noEdit noTrailers : Bool)
    (agentTrailers : List (List Char)) :
    (runCommitMessage msg amend noEdit noTrailers agentTrailers =
        .error ("commit message required (-m)".data) ↔
      msg = [] ∧ amend = false ∧ noEdit = false) ∧
    ((noTrailers = false ∧ msg ≠ [] ∧ agentTrailers ≠ []) →
      runCommitMessage msg amend noEdit noTrailers agentTrailers =
        .ok (appendTrailers msg agentTrailers)) ∧
    ((noTrailers = true ∨ msg = [] ∨ agentTrailers = []) →
      ∀ r, runCommitMessage msg amend noEdit noTrailers agentTrailers = .ok r →
        r = msg) := by
  unfold runCommitMessage
  split_ifs with h1 h2
  · refine ⟨⟨fun _ => h1, fun _ => rfl⟩, ?_, ?_⟩
    · intro hc
      exact absurd h1.1 hc.2.1
    · intro _ r hr
      exact absurd hr (by simp)
  · refine ⟨⟨fun he => absurd he (by simp), fun hc => absurd hc h1⟩, fun _ => rfl, ?_⟩
    intro hd r hr
    rcases hd with h | h | h
    · rw [h] at h2
      exact absurd h2.1 (by simp)
    · exact absurd h h2.2.1
    · exact absurd h h2.2.2
  · refine ⟨⟨fun he => absurd he (by simp), fun hc => absurd hc h1⟩,
      fun hc => absurd hc h2, ?_⟩
    intro _ r hr
    exact (Except.ok.inj hr).symm

/-- Witness for C10: a plain `-m` commit with one agent trailer gets
the trailers appended. -/
theorem runCommitMessage_spec_w :
    runCommitMessage "Fix bug".data false false false ["Rig: beads".data] =
      .ok (appendTrailers "Fix bug".data ["Rig: beads".data]) :=
  (runCommitMessage_spec "Fix bug".data false false false ["Rig: beads".data]).2.1
    ⟨rfl, by simp, by simp⟩

/-- Witness for C9: the porcelain line `AM f` is reported only under
`Modified`, never under `Added`. -/
theorem status_classification_w :
    (statusOf ('A' :: 'M' :: ' ' :: 'f' :: [])).modified = [['f']] ∧
    (statusOf ('A' :: 'M' :: ' ' :: 'f' :: [])).added = [] ∧
    (statusOf ('A' :: 'M' :: ' ' :: 'f' :: [])).clean = false :=
  ⟨by rw [(status_classification ('A' :: 'M' :: ' ' :: 'f' :: [])).2.1]; decide,
   by rw [(status_classification ('A' :: 'M' :: ' ' :: 'f' :: [])).2.2.1]; decide,
   by
    have h := (status_classification ('A' :: 'M' :: ' ' :: 'f' :: [])).1
    simp only [show ('A' :: 'M' :: ' ' :: 'f' :: [] : List Char) ≠ [] by simp,
      iff_false] at h
    simpa using h⟩
